import Mathlib

/-!
Shallow embedding of the attachment classification / deduplication pipeline
of the JutulGPT-UI repository (the `useFileUpload` hook and the
`multimodal-utils` conversion module), together with theorems settling the
frozen claims about it.

Conventions of the embedding:
  * A browser `File` is modelled as `RawFile` (name and declared MIME type);
    its lazy byte accessors (`FileReader.readAsDataURL`, `file.text()`) are
    modelled by a `ReadOracle` returning `Except String String`, an error
    standing for a rejected read promise.
  * `ContentBlock` is the closed sum of the three block shapes the code
    constructs and inspects (image, file/PDF, text); the optional
    `metadata.name` / `metadata.filename` fields are `Option String`.
  * `Promise.all` is modelled by `promiseAll` (first error aborts, values
    kept in input order); the schedule independence of the JS runtime's
    slot-filling is modelled separately by `fillResults`, which replays the
    per-index result writes in an arbitrary completion order.
  * React's `setContentBlocks (prev => [...prev, ...newBlocks])` is the
    final list append; a rejected ingestion promise leaves the collection
    unchanged (`sessionAfterUpload`).
-/

/-- Model of JavaScript `String.prototype.toLowerCase` (ASCII range, which
covers the allow-listed extensions), computed on the character list so that
the kernel can evaluate it. -/
def strToLower (s : String) : String := ⟨s.data.map Char.toLower⟩

/-- Model of JavaScript `String.prototype.endsWith`, computed on the
character lists. -/
def strEndsWith (s suf : String) : Bool := suf.data.isSuffixOf s.data

/-- Model of JavaScript `String.prototype.startsWith`, computed on the
character lists. -/
def strStartsWith (s head : String) : Bool := head.data.isPrefixOf s.data

/-- A browser-provided raw file: name and declared MIME type. -/
structure RawFile where
  name : String
  type : String
deriving DecidableEq, Repr

/-- The content blocks the code constructs and inspects: image blocks,
`file` (PDF) blocks and text blocks, with their optional metadata fields. -/
inductive ContentBlock where
  | image (mimeType : String) (data : String) (metaName : Option String)
  | file (mimeType : String) (data : String) (metaFilename : Option String)
  | text (text : String)
deriving DecidableEq, Repr

/-- The lazy byte accessors of a file: base64 materialization
(`fileToBase64`) and text materialization (`file.text()`).  An `error`
models a rejected promise (e.g. `FileReader.onerror`). -/
structure ReadOracle where
  base64 : RawFile → Except String String
  textContent : RawFile → Except String String

/-- `SUPPORTED_FILE_TYPES` from the hook module, in source order. -/
def SUPPORTED_FILE_TYPES : List String :=
  [ "image/jpeg", "image/png", "image/gif", "image/webp",
    "application/pdf",
    "text/plain", "application/json", "text/x-python", "text/x-c++src",
    "text/x-csrc", "text/x-java-source", "text/markdown", "text/x-julia",
    "", "application/octet-stream" ]

/-- `SUPPORTED_TEXT_EXTENSIONS` from the hook module, in source order. -/
def SUPPORTED_TEXT_EXTENSIONS : List String :=
  [ ".txt", ".py", ".js", ".ts", ".jsx", ".tsx", ".json", ".md", ".markdown",
    ".html", ".css", ".scss", ".sass", ".less", ".xml", ".yaml", ".yml",
    ".c", ".cpp", ".cc", ".cxx", ".h", ".hpp", ".java", ".go", ".rs", ".rb",
    ".php", ".sh", ".bash", ".zsh", ".fish", ".sql", ".r", ".jl", ".swift",
    ".kt", ".scala", ".clj", ".hs", ".elm", ".dart", ".lua", ".perl", ".pl",
    ".dockerfile", ".gitignore", ".env", ".log", ".cfg", ".conf", ".ini" ]

/-- Whether the lowercased filename ends with one of the allow-listed
text/code extensions. -/
def hasTextExtension (name : String) : Bool :=
  SUPPORTED_TEXT_EXTENSIONS.any (fun ext => strEndsWith (strToLower name) ext)

/-- `isFileSupported` from the hook module: accepted when the declared MIME
type is in `SUPPORTED_FILE_TYPES`, otherwise when the lowercased name ends
with an allow-listed text extension. -/
def isFileSupported (file : RawFile) : Bool :=
  if SUPPORTED_FILE_TYPES.contains file.type then true
  else hasTextExtension file.name

/-- `isDuplicate` from the hook module (lines 60–95): text-extension files
are matched against Text blocks by the literal `"File: " ++ name ++ "\n\n"`
payload head; then PDFs against `file` blocks by stored filename; then
`image/*` files against image blocks by stored name and MIME type. -/
def isDuplicate (file : RawFile) (blocks : List ContentBlock) : Bool :=
  if hasTextExtension file.name then
    blocks.any (fun b =>
      match b with
      | .text t => strStartsWith t ("File: " ++ file.name ++ "\n\n")
      | _ => false)
  else if file.type == "application/pdf" then
    blocks.any (fun b =>
      match b with
      | .file mt _ mf => mt == "application/pdf" && mf == some file.name
      | _ => false)
  else if strStartsWith file.type "image/" then
    blocks.any (fun b =>
      match b with
      | .image mt _ mn => mn == some file.name && mt == file.type
      | _ => false)
  else false

/-- The image MIME allow-list local to `fileToContentBlock`. -/
def supportedImageTypes : List String :=
  [ "image/jpeg", "image/png", "image/gif", "image/webp" ]

/-- The PDF MIME allow-list local to `fileToContentBlock`. -/
def supportedPdfTypes : List String := [ "application/pdf" ]

/-- The text MIME allow-list local to `fileToContentBlock`. -/
def supportedTextTypes : List String :=
  [ "text/plain", "application/json", "text/x-python", "text/x-c++src",
    "text/x-csrc", "text/x-java-source", "text/markdown", "text/x-julia",
    "", "application/octet-stream" ]

/-- The text extension allow-list local to `fileToContentBlock` (identical
entries to the hook's list). -/
def supportedTextExtensions : List String :=
  [ ".txt", ".py", ".js", ".ts", ".jsx", ".tsx", ".json", ".md", ".markdown",
    ".html", ".css", ".scss", ".sass", ".less", ".xml", ".yaml", ".yml",
    ".c", ".cpp", ".cc", ".cxx", ".h", ".hpp", ".java", ".go", ".rs", ".rb",
    ".php", ".sh", ".bash", ".zsh", ".fish", ".sql", ".r", ".jl", ".swift",
    ".kt", ".scala", ".clj", ".hs", ".elm", ".dart", ".lua", ".perl", ".pl",
    ".dockerfile", ".gitignore", ".env", ".log", ".cfg", ".conf", ".ini" ]

/-- The concatenated allow-list local to `fileToContentBlock`. -/
def supportedFileTypes : List String :=
  supportedImageTypes ++ supportedPdfTypes ++ supportedTextTypes

/-- The support gate local to `fileToContentBlock` (same logic as the
hook's `isFileSupported`, over the converter's own lists). -/
def localIsFileSupported (file : RawFile) : Bool :=
  if supportedFileTypes.contains file.type then true
  else supportedTextExtensions.any (fun ext => strEndsWith (strToLower file.name) ext)

/-- `fileToContentBlock` from the conversion module: reject unsupported
files, then produce an image block for image MIME types, a `file` block for
PDF, and a text block (payload `"File: " ++ name ++ "\n\n" ++ body`) for
text MIME types or allow-listed extensions; a final fallback rejection
closes the chain.  A read failure propagates as the `Except` error, like
the rejected promise in the source. -/
def fileToContentBlock (ro : ReadOracle) (file : RawFile) :
    Except String ContentBlock :=
  if !localIsFileSupported file then
    .error ("Unsupported file type: " ++ file.type)
  else if supportedImageTypes.contains file.type then
    (ro.base64 file).map (fun data =>
      .image file.type data (some file.name))
  else if supportedPdfTypes.contains file.type then
    (ro.base64 file).map (fun data =>
      .file "application/pdf" data (some file.name))
  else if supportedTextTypes.contains file.type
      || supportedTextExtensions.any (fun ext => strEndsWith (strToLower file.name) ext) then
    (ro.textContent file).map (fun t =>
      .text ("File: " ++ file.name ++ "\n\n" ++ t))
  else
    .error ("Unsupported file type: " ++ file.type)

/-- Model of `Promise.all` over already-ordered tasks: values are collected
in input order and the first error (in input order) rejects the whole
batch.  Which error value is reported is unobservable to the claims; only
ok/error matters. -/
def promiseAll {ε α : Type} (xs : List (Except ε α)) : Except ε (List α) :=
  match xs with
  | [] => .ok []
  | x :: rest =>
    match x with
    | .error e => .error e
    | .ok a => (promiseAll rest).map (fun l => a :: l)

/-- The `validFiles`-then-`uniqueFiles` selection of `handleFileUpload`
(and `handleWindowDrop`): supported files that are not duplicates against
the pre-call collection snapshot. -/
def uploadUnique (files : List RawFile) (blocks : List ContentBlock) :
    List RawFile :=
  (files.filter (fun f => isFileSupported f)).filter
    (fun f => !isDuplicate f blocks)

/-- The `invalidFiles` selection of `handleFileUpload`. -/
def uploadInvalid (files : List RawFile) : List RawFile :=
  files.filter (fun f => !isFileSupported f)

/-- The collection-mutating core of `handleFileUpload`: materialize the
unique files with `Promise.all` and append the results to the snapshot in
one mutation; a rejected batch yields `error` and no mutation. -/
def handleFileUpload (ro : ReadOracle) (files : List RawFile)
    (contentBlocks : List ContentBlock) :
    Except String (List ContentBlock) :=
  match promiseAll ((uploadUnique files contentBlocks).map
      (fileToContentBlock ro)) with
  | .error e => .error e
  | .ok newBlocks => .ok (contentBlocks ++ newBlocks)

/-- The session collection observed after one ingestion call: the appended
collection on success, the untouched snapshot when the batch promise
rejected (the `setContentBlocks` append is never reached). -/
def sessionAfterUpload (ro : ReadOracle) (files : List RawFile)
    (contentBlocks : List ContentBlock) : List ContentBlock :=
  match handleFileUpload ro files contentBlocks with
  | .ok newCollection => newCollection
  | .error _ => contentBlocks

/-- A qualifying window-level drag event (the listeners' guard
`e.dataTransfer.types.includes("Files")` already holds for enter/leave). -/
inductive DragEv where
  | enter
  | leave
  | drop
  | dragEnd
deriving DecidableEq, Repr

/-- The drag-tracking state of the hook: `dragCounter.current` and the
`dragOver` boolean. -/
structure DragState where
  dragCounter : Int
  dragOver : Bool
deriving DecidableEq, Repr

/-- One window-level drag event handled, after the handler returns:
`handleWindowDragEnter` increments and sets hover; `handleWindowDragLeave`
decrements and, when the counter reached zero or below, clears hover and
resets the counter to zero; `handleWindowDrop` and `handleWindowDragEnd`
force-reset both. -/
def dragStep (s : DragState) (e : DragEv) : DragState :=
  match e with
  | .enter => { dragCounter := s.dragCounter + 1, dragOver := true }
  | .leave =>
    let c := s.dragCounter - 1
    if c ≤ 0 then { dragCounter := 0, dragOver := false }
    else { dragCounter := c, dragOver := s.dragOver }
  | .drop => { dragCounter := 0, dragOver := false }
  | .dragEnd => { dragCounter := 0, dragOver := false }

/-- Run a sequence of window-level drag events from a state. -/
def dragRun (s : DragState) (events : List DragEv) : DragState :=
  events.foldl dragStep s

/-- One clipboard item: its `kind` and what `getAsFile()` returns
(`none` models a `null` result). -/
structure ClipboardItem where
  kind : String
  asFile : Option RawFile
deriving DecidableEq, Repr

/-- The file list `handlePaste` extracts: items of kind `"file"` whose
`getAsFile()` is non-null, in item order. -/
def pasteFiles (items : List ClipboardItem) : List RawFile :=
  items.filterMap (fun it => if it.kind == "file" then it.asFile else none)

/-- The duplicate predicate defined inline inside `handlePaste`
(hook lines 273–308), translated on its own from that closure. -/
def pasteIsDuplicate (contentBlocks : List ContentBlock) (file : RawFile) :
    Bool :=
  if SUPPORTED_TEXT_EXTENSIONS.any
      (fun ext => strEndsWith (strToLower file.name) ext) then
    contentBlocks.any (fun b =>
      match b with
      | .text t => strStartsWith t ("File: " ++ file.name ++ "\n\n")
      | _ => false)
  else if file.type == "application/pdf" then
    contentBlocks.any (fun b =>
      match b with
      | .file mt _ mf => mt == "application/pdf" && mf == some file.name
      | _ => false)
  else if strStartsWith file.type "image/" then
    contentBlocks.any (fun b =>
      match b with
      | .image mt _ mn => mn == some file.name && mt == file.type
      | _ => false)
  else false

/-- The invalid-file diagnostic emitted by `handlePaste`. -/
def pasteInvalidMsg : String :=
  "You have pasted an invalid file type. Please paste an image, PDF, or supported text/code file (e.g. .txt, .json, .py, .md, etc.)."

/-- The aggregate duplicate diagnostic (same string for all entry points). -/
def duplicateMsg (names : List String) : String :=
  "Duplicate file(s) detected: " ++ String.intercalate ", " names ++
    ". Each file can only be uploaded once per message."

/-- The observable outcome of one `handlePaste` call: whether
`e.preventDefault()` was called, the session collection afterwards, and the
diagnostics emitted. -/
structure PasteOutcome where
  preventedDefault : Bool
  contentBlocks : List ContentBlock
  toasts : List String
deriving DecidableEq, Repr

/-- `handlePaste` from the hook (lines 250–325): extract the file items; if
none, return without suppressing default paste, mutating, or emitting; else
suppress default paste and run the classify/dedup/materialize/append
pipeline with the inline duplicate predicate.  A rejected materialization
batch leaves the collection unchanged (the `setContentBlocks` call inside
the `uniqueFiles.length > 0` branch is never reached). -/
def handlePaste (ro : ReadOracle) (items : List ClipboardItem)
    (contentBlocks : List ContentBlock) : PasteOutcome :=
  let files := pasteFiles items
  if files.isEmpty then
    { preventedDefault := false, contentBlocks := contentBlocks, toasts := [] }
  else
    let validFiles := files.filter (fun f => isFileSupported f)
    let invalidFiles := files.filter (fun f => !isFileSupported f)
    let duplicateFiles := validFiles.filter
      (fun f => pasteIsDuplicate contentBlocks f)
    let uniqueFiles := validFiles.filter
      (fun f => !pasteIsDuplicate contentBlocks f)
    let toasts :=
      (if invalidFiles.length > 0 then [pasteInvalidMsg] else []) ++
      (if duplicateFiles.length > 0 then
        [duplicateMsg (duplicateFiles.map RawFile.name)] else [])
    if uniqueFiles.length > 0 then
      match promiseAll (uniqueFiles.map (fileToContentBlock ro)) with
      | .ok newBlocks =>
        { preventedDefault := true,
          contentBlocks := contentBlocks ++ newBlocks, toasts := toasts }
      | .error _ =>
        { preventedDefault := true,
          contentBlocks := contentBlocks, toasts := toasts }
    else
      { preventedDefault := true,
        contentBlocks := contentBlocks, toasts := toasts }

/-- Modelled from the spec: the Document identity rule — duplicate iff some
existing Document (`file`) block stores MIME type `application/pdf` and a
filename equal to `file.name` exactly. -/
def specDocumentRule (file : RawFile) (blocks : List ContentBlock) : Bool :=
  blocks.any (fun b =>
    match b with
    | .file mt _ mf => mt == "application/pdf" && mf == some file.name
    | _ => false)

/-- Modelled from the spec: the Image identity rule — duplicate iff some
existing Image block stores both a source name equal to `file.name` and a
MIME type equal to the file's declared type. -/
def specImageRule (file : RawFile) (blocks : List ContentBlock) : Bool :=
  blocks.any (fun b =>
    match b with
    | .image mt _ mn => mn == some file.name && mt == file.type
    | _ => false)

/-- Modelled from the spec: the Text identity rule — duplicate iff some
existing Text block's content starts with the literal
`"File: " ++ file.name ++ "\n\n"`. -/
def specTextRule (file : RawFile) (blocks : List ContentBlock) : Bool :=
  blocks.any (fun b =>
    match b with
    | .text t => strStartsWith t ("File: " ++ file.name ++ "\n\n")
    | _ => false)

/-- Model of the JS runtime's slot-filling for `Promise.all`: the results
array starts as `n` empty slots, and each completion event for task `i`
(appearing in `order`, the chronological completion sequence) writes value
`i` into slot `i`.  The returned array is read out in slot order. -/
def fillResults {α : Type} (vals : List α) (order : List Nat) :
    List (Option α) :=
  order.foldl (fun acc i => acc.set i vals[i]?)
    (List.replicate vals.length none)


/-- A concrete read oracle whose reads always succeed. -/
def okOracle : ReadOracle :=
  { base64 := fun _ => .ok "d", textContent := fun _ => .ok "body" }

/-- A concrete read oracle whose base64 reads always fail (a rejecting
`FileReader`) while text reads succeed. -/
def failB64Oracle : ReadOracle :=
  { base64 := fun _ => .error "read error", textContent := fun _ => .ok "body" }

lemma pasteDup_eq (blocks : List ContentBlock) (file : RawFile) :
    pasteIsDuplicate blocks file = isDuplicate file blocks := rfl

lemma localGate_eq (file : RawFile) :
    localIsFileSupported file = isFileSupported file := rfl

lemma promiseAll_error_of_mem {ε α : Type} {xs : List (Except ε α)} {e : ε}
    (hx : Except.error e ∈ xs) :
    ∃ e2, promiseAll xs = Except.error e2 := by
  induction xs with
  | nil => cases hx
  | cons x rest ih =>
    rcases List.mem_cons.1 hx with h | h
    · exact ⟨e, by simp [promiseAll, ← h]⟩
    · cases x with
      | error e3 => exact ⟨e3, by simp [promiseAll]⟩
      | ok a =>
        obtain ⟨e2, h2⟩ := ih h
        exact ⟨e2, by simp [promiseAll, h2, Except.map]⟩

lemma promiseAll_ok_eq_map {ε α : Type} :
    ∀ (xs : List (Except ε α)) (ys : List α),
      promiseAll xs = Except.ok ys → xs = ys.map Except.ok := by
  intro xs
  induction xs with
  | nil =>
    intro ys h
    simp only [promiseAll, Except.ok.injEq] at h
    simp [← h]
  | cons x rest ih =>
    intro ys h
    cases x with
    | error e => simp [promiseAll] at h
    | ok a =>
      simp only [promiseAll] at h
      cases hr : promiseAll rest with
      | error e2 => rw [hr] at h; simp [Except.map] at h
      | ok l =>
        rw [hr] at h
        simp only [Except.map, Except.ok.injEq] at h
        subst h
        simp [ih l hr]

lemma fillLoop_length {α : Type} (vals : List α) :
    ∀ (order : List Nat) (acc : List (Option α)),
      (order.foldl (fun a i => a.set i vals[i]?) acc).length = acc.length := by
  intro order
  induction order with
  | nil => intro acc; rfl
  | cons i rest ih =>
    intro acc
    simp [List.foldl_cons, ih]

lemma fillLoop_getElem {α : Type} (vals : List α) :
    ∀ (order : List Nat) (acc : List (Option α)) (j : Nat),
      acc.length = vals.length →
      (order.foldl (fun a i => a.set i vals[i]?) acc)[j]? =
        if j ∈ order ∧ j < vals.length then some vals[j]? else acc[j]? := by
  intro order
  induction order with
  | nil => intro acc j _; simp
  | cons i rest ih =>
    intro acc j hlen
    have hlen2 : (acc.set i vals[i]?).length = vals.length := by
      simp [hlen]
    rw [List.foldl_cons, ih (acc.set i vals[i]?) j hlen2]
    by_cases hr : j ∈ rest ∧ j < vals.length
    · simp [hr, List.mem_cons.2 (Or.inr hr.1)]
    · rw [if_neg hr]
      by_cases hij : i = j
      · subst hij
        by_cases hlt : i < vals.length
        · rw [List.getElem?_set_eq_of_lt _ (by rw [hlen]; exact hlt)]
          simp [hlt]
        · rw [List.set_eq_of_length_le (by rw [hlen]; omega)]
          have : ¬ (i ∈ i :: rest ∧ i < vals.length) := fun h => hlt h.2
          rw [if_neg this]
      · rw [List.getElem?_set_ne hij]
        have : ¬ (j ∈ i :: rest ∧ j < vals.length) := by
          intro h
          rcases List.mem_cons.1 h.1 with h1 | h1
          · exact hij h1.symm
          · exact hr ⟨h1, h.2⟩
        rw [if_neg this]

lemma fillResults_complete {α : Type} (vals : List α) (order : List Nat)
    (hcover : ∀ i, i < vals.length → i ∈ order) :
    fillResults vals order = vals.map some := by
  apply List.ext_getElem?
  intro j
  rw [fillResults, fillLoop_getElem vals order _ j (by simp)]
  by_cases hj : j < vals.length
  · rw [if_pos ⟨hcover j hj, hj⟩]
    rw [List.getElem?_eq_getElem hj,
      List.getElem?_eq_getElem (by simpa using hj)]
    simp
  · rw [if_neg (fun h => hj h.2)]
    rw [List.getElem?_eq_none (by simpa using hj),
      List.getElem?_eq_none (by simp; omega)]

lemma dragStep_nonneg (s : DragState) (e : DragEv)
    (h : 0 ≤ s.dragCounter) : 0 ≤ (dragStep s e).dragCounter := by
  cases e with
  | enter => simp [dragStep]; omega
  | leave =>
    simp only [dragStep]
    by_cases hc : s.dragCounter - 1 ≤ 0
    · simp [hc]
    · simp [hc]; omega
  | drop => simp [dragStep]
  | dragEnd => simp [dragStep]

lemma dragRun_nonneg (events : List DragEv) :
    ∀ s : DragState, 0 ≤ s.dragCounter →
      0 ≤ (dragRun s events).dragCounter := by
  induction events with
  | nil => intro s h; exact h
  | cons e rest ih =>
    intro s h
    exact ih (dragStep s e) (dragStep_nonneg s e h)

/-- C4: for every sequence of qualifying window-level drag events, the
reentrancy counter is never left negative after an event is handled (each
decrement that would go below zero is clamped to zero), and the concrete
sequence of 2 enters followed by 3 leaves ends with the counter at zero and
the hover boolean false. -/
theorem drag_counter_clamped (events : List DragEv) (s : DragState)
    (h : 0 ≤ s.dragCounter) :
    0 ≤ (dragRun s events).dragCounter ∧
    dragRun ⟨0, false⟩
      [DragEv.enter, DragEv.enter, DragEv.leave, DragEv.leave, DragEv.leave] =
      ⟨0, false⟩ :=
  ⟨dragRun_nonneg events s h, by decide⟩

/-- Witness for `drag_counter_clamped` at a concrete state and event list. -/
theorem drag_counter_clamped_witness :
    0 ≤ (dragRun ⟨1, true⟩ [DragEv.leave, DragEv.leave]).dragCounter ∧
    dragRun ⟨0, false⟩
      [DragEv.enter, DragEv.enter, DragEv.leave, DragEv.leave, DragEv.leave] =
      ⟨0, false⟩ :=
  drag_counter_clamped [DragEv.leave, DragEv.leave] ⟨1, true⟩ (by decide)

/-- C5: for every file whose lowercased name ends with an allow-listed text
extension, `isDuplicate` equals the Text identity rule (payload head
`"File: " ++ file.name ++ "\n\n"`, filename case-sensitive); concretely,
against a Text block for `notes.txt`, the file `notes.txt` is flagged
duplicate while `Notes.txt` is not. -/
theorem text_dedup_case_sensitive (f : RawFile) (blocks : List ContentBlock)
    (hext : hasTextExtension f.name = true) :
    isDuplicate f blocks = specTextRule f blocks ∧
    isDuplicate ⟨"notes.txt", "text/plain"⟩
      [ContentBlock.text "File: notes.txt\n\nhello"] = true ∧
    isDuplicate ⟨"Notes.txt", "text/plain"⟩
      [ContentBlock.text "File: notes.txt\n\nhello"] = false := by
  refine ⟨?_, by decide, by decide⟩
  simp [isDuplicate, specTextRule, hext]

/-- Witness for `text_dedup_case_sensitive` at the `notes.txt` file. -/
theorem text_dedup_case_sensitive_witness :
    isDuplicate ⟨"notes.txt", "text/plain"⟩
        [ContentBlock.text "File: notes.txt\n\nhello"] =
      specTextRule ⟨"notes.txt", "text/plain"⟩
        [ContentBlock.text "File: notes.txt\n\nhello"] ∧
    isDuplicate ⟨"notes.txt", "text/plain"⟩
      [ContentBlock.text "File: notes.txt\n\nhello"] = true ∧
    isDuplicate ⟨"Notes.txt", "text/plain"⟩
      [ContentBlock.text "File: notes.txt\n\nhello"] = false :=
  text_dedup_case_sensitive ⟨"notes.txt", "text/plain"⟩
    [ContentBlock.text "File: notes.txt\n\nhello"] (by decide)

/-- C9: the duplicate predicate defined inline inside `handlePaste` is
extensionally equal to the hook-level `isDuplicate` on every file and
collection state. -/
theorem paste_inline_dedup_agrees (file : RawFile)
    (blocks : List ContentBlock) :
    pasteIsDuplicate blocks file = isDuplicate file blocks := rfl

/-- C1 counterexample: the file named `a.txt` with declared type
`application/pdf` would be classified as a Document (`fileToContentBlock`
yields a `file` block), yet `isDuplicate` does not evaluate the Document
rule for it: against a collection holding exactly the matching Document
block, the Document rule fires but `isDuplicate` answers `false` (the
text-extension branch is taken first). -/
theorem dedup_variant_counterexample :
    RawFile.type ⟨"a.txt", "application/pdf"⟩ = "application/pdf" ∧
    fileToContentBlock okOracle ⟨"a.txt", "application/pdf"⟩ =
      Except.ok (ContentBlock.file "application/pdf" "d" (some "a.txt")) ∧
    specDocumentRule ⟨"a.txt", "application/pdf"⟩
      [ContentBlock.file "application/pdf" "d" (some "a.txt")] = true ∧
    isDuplicate ⟨"a.txt", "application/pdf"⟩
      [ContentBlock.file "application/pdf" "d" (some "a.txt")] = false :=
  ⟨rfl, rfl, by decide, by decide⟩

/-- C1 (amended): `isDuplicate` dispatches on the text-extension check
first — a file whose lowercased name ends with an allow-listed text
extension is tested with the Text rule regardless of declared type; only
when the name has no such extension is a file with declared type exactly
`application/pdf` tested with the Document rule and a file whose declared
type is in the image allow-list tested with the Image rule. -/
theorem dedup_variant_dispatch (f : RawFile) (blocks : List ContentBlock) :
    (hasTextExtension f.name = true →
      isDuplicate f blocks = specTextRule f blocks) ∧
    (hasTextExtension f.name = false → f.type = "application/pdf" →
      isDuplicate f blocks = specDocumentRule f blocks) ∧
    (hasTextExtension f.name = false →
      supportedImageTypes.contains f.type = true →
      isDuplicate f blocks = specImageRule f blocks) := by
  refine ⟨fun h => by simp [isDuplicate, specTextRule, h], fun h hp => ?_,
    fun h hi => ?_⟩
  · simp [isDuplicate, specDocumentRule, h, hp]
  · have hcase : f.type = "image/jpeg" ∨ f.type = "image/png" ∨
        f.type = "image/gif" ∨ f.type = "image/webp" := by
      have hmem : f.type ∈ supportedImageTypes := List.elem_iff.1 hi
      simpa [supportedImageTypes] using hmem
    have himg : strStartsWith f.type "image/" = true := by
      rcases hcase with h1 | h1 | h1 | h1 <;> rw [h1] <;> decide
    have hpdf : (f.type == "application/pdf") = false := by
      rcases hcase with h1 | h1 | h1 | h1 <;> rw [h1] <;> decide
    simp [isDuplicate, specImageRule, h, himg, hpdf]

/-- Witness for `dedup_variant_dispatch`: a PDF named `b.pdf` (no text
extension) is tested with the Document rule. -/
theorem dedup_variant_dispatch_witness :
    isDuplicate ⟨"b.pdf", "application/pdf"⟩
        [ContentBlock.file "application/pdf" "d" (some "b.pdf")] =
      specDocumentRule ⟨"b.pdf", "application/pdf"⟩
        [ContentBlock.file "application/pdf" "d" (some "b.pdf")] :=
  (dedup_variant_dispatch ⟨"b.pdf", "application/pdf"⟩
    [ContentBlock.file "application/pdf" "d" (some "b.pdf")]).2.1
    (by decide) rfl

/-- C2 counterexample: the file `payload.exe` with declared type `""` has
no allow-listed extension, yet classification accepts it (`""` is in the
MIME allow-list): it is not counted among the invalid files, and one
ingestion call materializes it as a Text block and appends it. -/
theorem generic_type_counterexample :
    isFileSupported ⟨"payload.exe", ""⟩ = true ∧
    hasTextExtension "payload.exe" = false ∧
    uploadInvalid [⟨"payload.exe", ""⟩] = [] ∧
    sessionAfterUpload okOracle [⟨"payload.exe", ""⟩] [] =
      [ContentBlock.text "File: payload.exe\n\nbody"] :=
  ⟨by decide, by decide, by decide, rfl⟩

/-- C2 (amended): a file whose declared media type is the empty string or
`application/octet-stream` is accepted by classification regardless of its
extension (both types sit in the MIME allow-list); it is classified to the
Text path and, when its text read succeeds, materialized as the Text block
`"File: " ++ name ++ "\n\n" ++ body`. -/
theorem generic_type_accepted (f : RawFile) (ro : ReadOracle) (t : String)
    (htype : f.type = "" ∨ f.type = "application/octet-stream")
    (hread : ro.textContent f = Except.ok t) :
    isFileSupported f = true ∧
    fileToContentBlock ro f =
      Except.ok (ContentBlock.text ("File: " ++ f.name ++ "\n\n" ++ t)) := by
  rcases htype with h | h
  · have h1 : f.type ∈ SUPPORTED_FILE_TYPES := by rw [h]; decide
    have h2 : f.type ∈ supportedFileTypes := by rw [h]; decide
    have h3 : f.type ∉ supportedImageTypes := by rw [h]; decide
    have h4 : f.type ∉ supportedPdfTypes := by rw [h]; decide
    have h5 : f.type ∈ supportedTextTypes := by rw [h]; decide
    refine ⟨by simp [isFileSupported, h1], ?_⟩
    simp [fileToContentBlock, localIsFileSupported, h2, h3, h4, h5, hread,
      Except.map]
  · have h1 : f.type ∈ SUPPORTED_FILE_TYPES := by rw [h]; decide
    have h2 : f.type ∈ supportedFileTypes := by rw [h]; decide
    have h3 : f.type ∉ supportedImageTypes := by rw [h]; decide
    have h4 : f.type ∉ supportedPdfTypes := by rw [h]; decide
    have h5 : f.type ∈ supportedTextTypes := by rw [h]; decide
    refine ⟨by simp [isFileSupported, h1], ?_⟩
    simp [fileToContentBlock, localIsFileSupported, h2, h3, h4, h5, hread,
      Except.map]

/-- Witness for `generic_type_accepted` at the `payload.exe` file with an
empty declared type and a succeeding text read. -/
theorem generic_type_accepted_witness :
    isFileSupported ⟨"payload.exe", ""⟩ = true ∧
    fileToContentBlock okOracle ⟨"payload.exe", ""⟩ =
      Except.ok (ContentBlock.text ("File: " ++ "payload.exe" ++ "\n\n" ++ "body")) :=
  generic_type_accepted ⟨"payload.exe", ""⟩ okOracle "body" (Or.inl rfl) rfl

/-- C3: whenever the materialization of at least one unique file of the
batch fails, the whole `Promise.all` batch rejects, the append is never
reached, and the session collection equals its pre-call value (blocks of
sibling files that read fine are discarded with the batch). -/
theorem read_failure_aborts_batch (ro : ReadOracle) (files : List RawFile)
    (blocks : List ContentBlock) (f : RawFile) (e : String)
    (hf : f ∈ uploadUnique files blocks)
    (herr : fileToContentBlock ro f = Except.error e) :
    sessionAfterUpload ro files blocks = blocks := by
  have hmem : Except.error e ∈
      (uploadUnique files blocks).map (fileToContentBlock ro) := by
    rw [← herr]
    exact List.mem_map_of_mem (fileToContentBlock ro) hf
  obtain ⟨e2, hp⟩ := promiseAll_error_of_mem hmem
  simp [sessionAfterUpload, handleFileUpload, hp]

/-- Witness for `read_failure_aborts_batch`: a two-file batch in which the
image read fails while the text sibling would succeed appends nothing. -/
theorem read_failure_aborts_batch_witness :
    sessionAfterUpload failB64Oracle
      [⟨"good.txt", "text/plain"⟩, ⟨"bad.png", "image/png"⟩] [] = [] ∧
    fileToContentBlock failB64Oracle ⟨"good.txt", "text/plain"⟩ =
      Except.ok (ContentBlock.text "File: good.txt\n\nbody") :=
  ⟨read_failure_aborts_batch failB64Oracle
      [⟨"good.txt", "text/plain"⟩, ⟨"bad.png", "image/png"⟩] []
      ⟨"bad.png", "image/png"⟩ "read error" (by decide) rfl,
    rfl⟩

/-- C6: within one ingestion call the duplicate predicate is evaluated
against the pre-call snapshot only: two supported files with identical
names in the same batch, neither matching a pre-existing block, are both
classified unique and both appended. -/
theorem same_batch_not_mutually_dedup (ro : ReadOracle)
    (blocks : List ContentBlock) (f1 f2 : RawFile) (b1 b2 : ContentBlock)
    (_hname : f1.name = f2.name)
    (hs1 : isFileSupported f1 = true) (hs2 : isFileSupported f2 = true)
    (hd1 : isDuplicate f1 blocks = false)
    (hd2 : isDuplicate f2 blocks = false)
    (hc1 : fileToContentBlock ro f1 = Except.ok b1)
    (hc2 : fileToContentBlock ro f2 = Except.ok b2) :
    uploadUnique [f1, f2] blocks = [f1, f2] ∧
    sessionAfterUpload ro [f1, f2] blocks = blocks ++ [b1, b2] := by
  have hu : uploadUnique [f1, f2] blocks = [f1, f2] := by
    simp [uploadUnique, hs1, hs2, hd1, hd2]
  refine ⟨hu, ?_⟩
  simp [sessionAfterUpload, handleFileUpload, hu, promiseAll, hc1, hc2,
    Except.map]

/-- Witness for `same_batch_not_mutually_dedup`: two files both named
`a.txt` in one batch against an empty collection are both appended. -/
theorem same_batch_not_mutually_dedup_witness :
    uploadUnique [⟨"a.txt", "text/plain"⟩, ⟨"a.txt", "text/plain"⟩] [] =
      [⟨"a.txt", "text/plain"⟩, ⟨"a.txt", "text/plain"⟩] ∧
    sessionAfterUpload okOracle
        [⟨"a.txt", "text/plain"⟩, ⟨"a.txt", "text/plain"⟩] [] =
      [] ++ [ContentBlock.text "File: a.txt\n\nbody",
             ContentBlock.text "File: a.txt\n\nbody"] :=
  same_batch_not_mutually_dedup okOracle [] ⟨"a.txt", "text/plain"⟩
    ⟨"a.txt", "text/plain"⟩ (ContentBlock.text "File: a.txt\n\nbody")
    (ContentBlock.text "File: a.txt\n\nbody") rfl (by decide) (by decide)
    (by decide) (by decide) rfl rfl

/-- C7: the blocks produced from the unique files are appended to the
collection in a single mutation, in input order — the i-th appended block
is the materialization of the i-th unique file — and the `Promise.all`
slot-filling yields that same array under every completion order covering
all indices. -/
theorem batch_append_preserves_input_order (ro : ReadOracle)
    (files : List RawFile) (blocks newBlocks : List ContentBlock)
    (order : List Nat)
    (hok : promiseAll ((uploadUnique files blocks).map
        (fileToContentBlock ro)) = Except.ok newBlocks)
    (hcover : ∀ i, i < newBlocks.length → i ∈ order) :
    sessionAfterUpload ro files blocks = blocks ++ newBlocks ∧
    newBlocks.length = (uploadUnique files blocks).length ∧
    (∀ i (h1 : i < (uploadUnique files blocks).length)
        (h2 : i < newBlocks.length),
      fileToContentBlock ro ((uploadUnique files blocks).get ⟨i, h1⟩) =
        Except.ok (newBlocks.get ⟨i, h2⟩)) ∧
    fillResults newBlocks order = newBlocks.map some := by
  have hmap := promiseAll_ok_eq_map _ _ hok
  refine ⟨by simp [sessionAfterUpload, handleFileUpload, hok], ?_, ?_,
    fillResults_complete newBlocks order hcover⟩
  · have hlen := congrArg List.length hmap
    simpa using hlen.symm
  · intro i h1 h2
    have h3 : ((uploadUnique files blocks).map (fileToContentBlock ro))[i]? =
        (newBlocks.map Except.ok)[i]? := by rw [hmap]
    rw [List.getElem?_map, List.getElem?_map,
      List.getElem?_eq_getElem h1, List.getElem?_eq_getElem h2] at h3
    simpa [List.get_eq_getElem] using h3

/-- Witness for `batch_append_preserves_input_order`: three unique files
appended in input order, with completion order `[2, 0, 1]`. -/
theorem batch_append_preserves_input_order_witness :
    sessionAfterUpload okOracle
        [⟨"A.png", "image/png"⟩, ⟨"B.pdf", "application/pdf"⟩,
         ⟨"C.txt", "text/plain"⟩] [] =
      [] ++ [ContentBlock.image "image/png" "d" (some "A.png"),
             ContentBlock.file "application/pdf" "d" (some "B.pdf"),
             ContentBlock.text "File: C.txt\n\nbody"] ∧
    fillResults
        [ContentBlock.image "image/png" "d" (some "A.png"),
         ContentBlock.file "application/pdf" "d" (some "B.pdf"),
         ContentBlock.text "File: C.txt\n\nbody"] [2, 0, 1] =
      [ContentBlock.image "image/png" "d" (some "A.png"),
       ContentBlock.file "application/pdf" "d" (some "B.pdf"),
       ContentBlock.text "File: C.txt\n\nbody"].map some := by
  have h := batch_append_preserves_input_order okOracle
    [⟨"A.png", "image/png"⟩, ⟨"B.pdf", "application/pdf"⟩,
     ⟨"C.txt", "text/plain"⟩] []
    [ContentBlock.image "image/png" "d" (some "A.png"),
     ContentBlock.file "application/pdf" "d" (some "B.pdf"),
     ContentBlock.text "File: C.txt\n\nbody"] [2, 0, 1] rfl (by decide)
  exact ⟨h.1, h.2.2.2⟩
lemma handlePaste_nonempty_fields (ro : ReadOracle)
    (items : List ClipboardItem) (blocks : List ContentBlock)
    (hne : (pasteFiles items).isEmpty = false) :
    (handlePaste ro items blocks).preventedDefault = true ∧
    (handlePaste ro items blocks).contentBlocks =
      sessionAfterUpload ro (pasteFiles items) blocks := by
  simp only [handlePaste, hne, Bool.false_eq_true, if_false, pasteDup_eq,
    sessionAfterUpload, handleFileUpload, uploadUnique]
  cases hp : promiseAll
      ((((pasteFiles items).filter (fun f => isFileSupported f)).filter
        (fun f => !isDuplicate f blocks)).map (fileToContentBlock ro)) with
  | error e =>
    constructor
    · split <;> rfl
    · split <;> rfl
  | ok nb =>
    constructor
    · split <;> rfl
    · split
      · rfl
      · rename_i hlen
        have hu0 : ((pasteFiles items).filter
            (fun f => isFileSupported f)).filter
            (fun f => !isDuplicate f blocks) = [] := by
          apply List.length_eq_zero.1
          omega
        rw [hu0] at hp
        simp [promiseAll] at hp
        simp [← hp]

/-- C8: with zero file items `handlePaste` returns without suppressing
default paste, mutating the collection, or emitting a diagnostic; with one
or more file items it suppresses default paste and the collection moves
exactly as under the upload pipeline on those files. -/
theorem paste_gate_and_pipeline (ro : ReadOracle)
    (items : List ClipboardItem) (blocks : List ContentBlock) :
    (pasteFiles items = [] →
      handlePaste ro items blocks =
        { preventedDefault := false, contentBlocks := blocks,
          toasts := [] }) ∧
    (pasteFiles items ≠ [] →
      (handlePaste ro items blocks).preventedDefault = true ∧
      (handlePaste ro items blocks).contentBlocks =
        sessionAfterUpload ro (pasteFiles items) blocks) := by
  constructor
  · intro h
    simp [handlePaste, h]
  · intro h
    exact handlePaste_nonempty_fields ro items blocks (by simpa using h)

/-- Witness for `paste_gate_and_pipeline`: a text-only clipboard is a
no-op, while a clipboard holding the file `a.txt` suppresses default paste
and appends through the shared pipeline. -/
theorem paste_gate_and_pipeline_witness :
    handlePaste okOracle [⟨"text", none⟩] [] =
      { preventedDefault := false, contentBlocks := [], toasts := [] } ∧
    ((handlePaste okOracle
        [⟨"file", some ⟨"a.txt", "text/plain"⟩⟩] []).preventedDefault =
          true ∧
      (handlePaste okOracle
        [⟨"file", some ⟨"a.txt", "text/plain"⟩⟩] []).contentBlocks =
        sessionAfterUpload okOracle
          (pasteFiles [⟨"file", some ⟨"a.txt", "text/plain"⟩⟩]) []) :=
  ⟨(paste_gate_and_pipeline okOracle [⟨"text", none⟩] []).1 rfl,
    (paste_gate_and_pipeline okOracle
      [⟨"file", some ⟨"a.txt", "text/plain"⟩⟩] []).2 (by decide)⟩

/-- C10: the converter's local support gate coincides with the hook's
`isFileSupported`, and for every file the hook's gate accepts, both
rejection branches of `fileToContentBlock` are unreachable: when the byte
reads succeed, the conversion returns some block. -/
theorem gate_implies_materialization (f : RawFile) (ro : ReadOracle)
    (hsupp : isFileSupported f = true)
    (hb : ∃ s, ro.base64 f = Except.ok s)
    (ht : ∃ s, ro.textContent f = Except.ok s) :
    localIsFileSupported f = isFileSupported f ∧
    ∃ b, fileToContentBlock ro f = Except.ok b := by
  refine ⟨localGate_eq f, ?_⟩
  obtain ⟨sb, hb⟩ := hb
  obtain ⟨st, ht⟩ := ht
  have hloc : localIsFileSupported f = true := (localGate_eq f).trans hsupp
  by_cases h1 : f.type ∈ supportedImageTypes
  · exact ⟨ContentBlock.image f.type sb (some f.name), by
      simp [fileToContentBlock, hloc, h1, hb, Except.map]⟩
  · by_cases h2 : f.type ∈ supportedPdfTypes
    · exact ⟨ContentBlock.file "application/pdf" sb (some f.name), by
        simp [fileToContentBlock, hloc, h1, h2, hb, Except.map]⟩
    · have h3 : f.type ∈ supportedTextTypes ∨
          supportedTextExtensions.any
            (fun ext => strEndsWith (strToLower f.name) ext) = true := by
        rw [localIsFileSupported] at hloc
        by_cases hc : supportedFileTypes.contains f.type = true
        · have hmem : f.type ∈ supportedFileTypes := List.elem_iff.1 hc
          rw [supportedFileTypes] at hmem
          rcases List.mem_append.1 hmem with hm | hm
          · rcases List.mem_append.1 hm with hm2 | hm2
            · exact absurd hm2 h1
            · exact absurd hm2 h2
          · exact Or.inl hm
        · rw [if_neg (by simpa using hc)] at hloc
          exact Or.inr hloc
      exact ⟨ContentBlock.text ("File: " ++ f.name ++ "\n\n" ++ st), by
        rcases h3 with h3 | h3 <;>
          simp [fileToContentBlock, hloc, h1, h2, h3, ht, Except.map]⟩

/-- Witness for `gate_implies_materialization` at the file `a.txt` with
succeeding reads. -/
theorem gate_implies_materialization_witness :
    localIsFileSupported ⟨"a.txt", "text/plain"⟩ =
      isFileSupported ⟨"a.txt", "text/plain"⟩ ∧
    ∃ b, fileToContentBlock okOracle ⟨"a.txt", "text/plain"⟩ =
      Except.ok b :=
  gate_implies_materialization ⟨"a.txt", "text/plain"⟩ okOracle (by decide)
    ⟨"d", rfl⟩ ⟨"body", rfl⟩
